import Mathlib

/-!
Verification of the grafana-simple-json-go encoding layer.

This development shallowly embeds the query/response encoding layer of the
`simplejson` package: the two wire-time codecs (`simpleJSONTime`,
`simpleJSONPTime`), the duration codec (`simpleJSONDuration`), the table
encoder (`jsonTableQuery`), the query dispatcher (`HandleQuery` /
`jsonQuery`), the region-annotation expansion (`HandleAnnotations`), the
search handler (`HandleSearch`) and the basic-auth check (`checkAuth`).

Conventions used throughout:
* Go `time.Time` values are embedded as `Int` nanoseconds since the Unix
  epoch (the package only ever inspects times through `UnixNano`,
  `time.Unix`, `Before` and `IsZero`).
* Go `float64` payloads are never computed with by this package, only
  copied; they are embedded as an opaque type parameter.
* Fallible Go paths (`error` returns) are embedded as `Except`/`Option`;
  a Go runtime panic (out-of-range slice index) is embedded as `none`.
* Go machine integers: the package stores counts and indexes well inside
  `int64`, which we embed as `Nat`/`Int`; the explicit `1 <<< 63` overflow
  checks of `time.ParseDuration` are carried over literally.
-/

/-! ## Go time representation -/

/-- Nanoseconds between the zero `time.Time` (January 1, year 1, 00:00:00
UTC) and the Unix epoch: `time.Time.IsZero` compares against this instant.
62135596800 is the number of seconds from year 1 to 1970. -/
def goZeroTimeNanos : Int := -62135596800000000000

/-- Embedding of Go `time.Time.IsZero` on the `Int`-nanosecond embedding of
`time.Time`. -/
def timeIsZero (t : Int) : Bool := t == goZeroTimeNanos

/-! ## The PointTime codec (`simpleJSONPTime`)

Source (`part_002`, lines 361-380):
`MarshalJSON` emits `time.Time(*sjdpt).UnixNano() / 1000000`; Go's `/` on
`int64` truncates toward zero, which is `Int.tdiv`.
`UnmarshalJSON` reads an `int64` and rebuilds `time.Unix(0, in*1000000)`. -/

/-- Embedding of `simpleJSONPTime.MarshalJSON`: milliseconds since epoch,
truncated toward zero as Go integer division does. -/
def simpleJSONPTimeMarshal (t : Int) : Int := Int.tdiv t 1000000

/-- Embedding of `simpleJSONPTime.UnmarshalJSON`: `time.Unix(0, in*1000000)`. -/
def simpleJSONPTimeUnmarshal (ms : Int) : Int := ms * 1000000

/-- Modelled from the spec: `truncateToMillis` drops the sub-millisecond
part of a timestamp (truncation toward zero, matching the truncating
semantics of the encoder's integer division). -/
def truncateToMillis (t : Int) : Int := Int.tdiv t 1000000 * 1000000

theorem natAbs_tmod_lt_million (t : Int) : (Int.tmod t 1000000).natAbs < 1000000 := by
  unfold Int.tmod
  rcases t with m | m
  · simpa using Nat.mod_lt m (by norm_num)
  · simpa using Nat.mod_lt (m + 1) (show 0 < 1000000 by norm_num)

/-- Claim C3: decoding the PointTime encoding of any timestamp `t` yields
`t` truncated to whole milliseconds: the round trip equals
`truncateToMillis t`, that value is a whole number of milliseconds, it is
less than one millisecond away from `t`, and any `t` that is already a
whole number of milliseconds survives the round trip unchanged (so
sub-millisecond precision is the only information lost). -/
theorem ptime_roundtrip_truncates_to_millis (t : Int) :
    simpleJSONPTimeUnmarshal (simpleJSONPTimeMarshal t) = truncateToMillis t ∧
    Int.tmod (truncateToMillis t) 1000000 = 0 ∧
    (t - truncateToMillis t).natAbs < 1000000 ∧
    (Int.tmod t 1000000 = 0 → simpleJSONPTimeUnmarshal (simpleJSONPTimeMarshal t) = t) := by
  have hid := Int.tdiv_add_tmod t 1000000
  have habs := natAbs_tmod_lt_million t
  refine ⟨rfl, ?_, ?_, ?_⟩
  · unfold truncateToMillis
    exact Int.mul_tmod_left (Int.tdiv t 1000000) 1000000
  · unfold truncateToMillis
    omega
  · intro h
    unfold simpleJSONPTimeUnmarshal simpleJSONPTimeMarshal
    omega

/-- Witness for C3 at `t = 5500000` (5.5 ms): the round trip yields 5 ms,
and at the millisecond-aligned `t = 7000000` the hypothesis of the last
conjunct is discharged and the round trip is the identity. -/
theorem ptime_roundtrip_truncates_to_millis_witness :
    simpleJSONPTimeUnmarshal (simpleJSONPTimeMarshal 5500000) = 5000000 ∧
    simpleJSONPTimeUnmarshal (simpleJSONPTimeMarshal 7000000) = 7000000 := by
  constructor
  · have h := (ptime_roundtrip_truncates_to_millis 5500000).1
    rw [h]; decide
  · exact (ptime_roundtrip_truncates_to_millis 7000000).2.2.2 (by decide)

/-! ## Basic auth (`checkAuth`, `src/simplejson.go` lines 607-628)

Go strings are byte strings; we embed the decoded base64 bytes back into a
`String` through `Char.ofNat` (bytes are 0-255, faithful for the ASCII
credentials the comparison is about). `strings.SplitN(s, sep, 2)` splits
around the first occurrence of the separator only. -/

/-- Split a character list at the first occurrence of `sep`, returning the
parts before and after it, or `none` when `sep` does not occur. -/
def splitOnFirst (sep : Char) : List Char → Option (List Char × List Char)
  | [] => none
  | c :: rest =>
    if c == sep then some ([], rest)
    else (splitOnFirst sep rest).map (fun p => (c :: p.1, p.2))

/-- Embedding of Go `strings.SplitN(s, sep, 2)` for a one-character
separator: one part when the separator is absent, otherwise exactly two. -/
def splitN2 (s : String) (sep : Char) : List String :=
  match splitOnFirst sep s.data with
  | none => [s]
  | some p => [String.mk p.1, String.mk p.2]

/-- Value of a character in the standard base64 alphabet
(`A-Z`, `a-z`, `0-9`, `+`, `/`), or `none` for any other character. -/
def b64Index (c : Char) : Option Nat :=
  if 65 ≤ c.toNat ∧ c.toNat ≤ 90 then some (c.toNat - 65)
  else if 97 ≤ c.toNat ∧ c.toNat ≤ 122 then some (c.toNat - 97 + 26)
  else if 48 ≤ c.toNat ∧ c.toNat ≤ 57 then some (c.toNat - 48 + 52)
  else if c == ('+') then some 62
  else if c == ('/') then some 63
  else none

/-- Decode base64 quads into byte values; `=` padding may close only the
final quad (one `=` leaves two bytes, two `=` leave one byte), mirroring
Go's `base64.StdEncoding` which also rejects any input whose length is not
a multiple of four. -/
def b64Quads : List Char → Option (List Nat)
  | [] => some []
  | a :: b :: c :: d :: rest => do
    let i ← b64Index a
    let j ← b64Index b
    if c == ('=') then
      if d == ('=') && rest.isEmpty then some [i * 4 + j / 16]
      else none
    else do
      let k ← b64Index c
      if d == ('=') then
        if rest.isEmpty then some [i * 4 + j / 16, j % 16 * 16 + k / 4]
        else none
      else do
        let l ← b64Index d
        let tl ← b64Quads rest
        some ((i * 4 + j / 16) :: (j % 16 * 16 + k / 4) :: (k % 4 * 64 + l) :: tl)
  | _ => none

/-- Embedding of `base64.StdEncoding.DecodeString`: Go's decoder skips
carriage returns and newlines wherever they occur, then decodes quads. -/
def base64DecodeString (s : String) : Option (List Nat) :=
  b64Quads (s.data.filter (fun c => !(c == ('\r') || c == ('\n'))))

/-- Embedding of `(*SJC).checkAuth`: the configured credentials and the
request's `Authorization` header decide the result. An empty configured
user short-circuits to `true`; otherwise the header is split around the
first space, the second part base64-decoded, split around the first colon,
and both halves compared with the configured pair. -/
def checkAuth (user pass authHeader : String) : Bool :=
  if user = "" then true
  else
    match splitN2 authHeader (' ') with
    | [_, cred] =>
      match base64DecodeString cred with
      | none => false
      | some bytes =>
        match splitN2 (String.mk (bytes.map (fun b => Char.ofNat b))) (':') with
        | [u, p] => u == user && p == pass
        | _ => false
    | _ => false

/-- Claim C10: with an empty configured basic-auth user, `checkAuth`
returns `true` for every request: the result neither depends on the
`Authorization` header nor on the configured password, so authentication
is never enforced in that configuration. -/
theorem checkAuth_empty_user_bypasses_auth (pass authHeader pass' authHeader' : String) :
    checkAuth "" pass authHeader = true ∧
    checkAuth "" pass authHeader = checkAuth "" pass' authHeader' := by
  constructor <;> simp [checkAuth]

/-! ## Annotations (`HandleAnnotations`, `part_002` lines 596-663)

The request's annotation descriptor is echoed verbatim into every record.
`RegionID` is a plain `int` struct field tagged `json:"regionId,omitempty"`:
Go's encoder drops the field from the wire whenever its value is the zero
value `0`, which `wireRegionId` makes explicit. -/

/-- Embedding of `simpleJSONAnnotation`: the free-form descriptor echoed
back in every record. -/
structure ReqAnnot where
  name : String
  datasource : String
  query : String
  enable : Bool
  iconColor : String
deriving DecidableEq

/-- Embedding of `Annotation` as returned by the Annotate collaborator;
times are `Int` nanoseconds, an unset end is the zero `time.Time`. -/
structure Annot where
  time : Int
  timeEnd : Int
  title : String
  text : String
  tags : List String
deriving DecidableEq

/-- Embedding of `simpleJSONAnnotationResponse` before JSON marshalling. -/
structure AnnotResp where
  reqAnnot : ReqAnnot
  time : Int
  regionID : Nat
  title : String
  text : String
  tags : List String
deriving DecidableEq

/-- Wire-level `regionId` field of a marshalled record: `omitempty` drops
the field exactly when `RegionID` holds the zero value. -/
def wireRegionId (r : AnnotResp) : Option Nat :=
  if r.regionID = 0 then none else some r.regionID

/-- Loop body of `HandleAnnotations`, carrying the 0-based index `i`:
every annotation emits a start record (with `RegionID = i` only when its
end time is set), and a second end record with `RegionID = i` when its end
time is set. -/
def expandAnnotsFrom (q : ReqAnnot) : Nat → List Annot → List AnnotResp
  | _, [] => []
  | i, a :: rest =>
    let start : AnnotResp :=
      ⟨q, a.time, if timeIsZero a.timeEnd then 0 else i, a.title, a.text, a.tags⟩
    if timeIsZero a.timeEnd then
      start :: expandAnnotsFrom q (i + 1) rest
    else
      start :: ⟨q, a.timeEnd, i, a.title, a.text, a.tags⟩ :: expandAnnotsFrom q (i + 1) rest

/-- Region-annotation expansion of `HandleAnnotations`, from index 0. -/
def expandAnnots (q : ReqAnnot) (anns : List Annot) : List AnnotResp :=
  expandAnnotsFrom q 0 anns

/-- Embedding of `HandleAnnotations` after request decoding, dispatching on
the Annotate collaborator's result: a collaborator error is written once
with `http.StatusBadRequest` (400) and nothing else; a success is the
expanded record list. -/
def handleAnnots (collabResult : Except String (List Annot)) (q : ReqAnnot) :
    Except (Nat × String) (List AnnotResp) :=
  match collabResult with
  | .error e => .error (400, e)
  | .ok anns => .ok (expandAnnots q anns)

/-- Claim C1 is violated by the code at index 0: evaluating the expansion
on a single region annotation (end time set) returned at index 0 yields
two records whose marshalled forms both omit the `regionId` field (because
`RegionID = 0` meets `omitempty`), while the claim requires both wire
records to carry `regionId = 0`. The record count and the start/end times
are as claimed. -/
theorem expandAnnots_regionId_omitted_at_index_zero :
    (expandAnnots ⟨"n", "d", "q", true, "c"⟩
        [⟨1000000000, 2000000000, "t", "x", []⟩]).map wireRegionId = [none, none] ∧
    (expandAnnots ⟨"n", "d", "q", true, "c"⟩
        [⟨1000000000, 2000000000, "t", "x", []⟩]).map AnnotResp.time =
      [1000000000, 2000000000] := by
  constructor <;> rfl

/-! ## Search (`HandleSearch`, `part_002` lines 669-698) -/

/-- Embedding of `HandleSearch` after request decoding: a Search
collaborator error is written once with `http.StatusBadRequest` (400); a
success is returned verbatim as the string list. -/
def handleSearch (collabResult : Except String (List String)) :
    Except (Nat × String) (List String) :=
  match collabResult with
  | .error e => .error (400, e)
  | .ok xs => .ok xs

/-! ## Table encoding (`jsonTableQuery`, `part_002` lines 423-487)

Column payloads: `NumberColumn []float64`, `StringColumn []string`,
`TimeColumn []time.Time`; the `float64` cell values are carried opaquely,
so they are embedded as a type parameter `F`. `TableColumnData` is an
interface with an unexported marker method, so the dynamic type can also
be some other implementation from inside the package: the `default` branch
of the first switch is kept as the `invalid` case. -/

/-- Embedding of the dynamic `TableColumnData` payload of a column. -/
inductive ColData (F : Type) where
  | number : List F → ColData F
  | str : List String → ColData F
  | time : List Int → ColData F
  | invalid : ColData F
deriving DecidableEq

/-- Embedding of `TableColumn`. -/
structure TableColumn (F : Type) where
  text : String
  data : ColData F
deriving DecidableEq

/-- Embedding of `simpleJSONTableColumn`, the wire column header. -/
structure SJTableColumn where
  text : String
  type : String
deriving DecidableEq

/-- Column type tag and value-sequence length of the first `switch` of
`jsonTableQuery`; `none` is its `default` branch. -/
def colTypeLen {F : Type} : ColData F → Option (String × Nat)
  | .number l => some ("number", l.length)
  | .str l => some ("string", l.length)
  | .time l => some ("time", l.length)
  | .invalid => none

/-- One cell of the wire row matrix (`interface{}` in the source). -/
inductive CellVal (F : Type) where
  | num : F → CellVal F
  | str : String → CellVal F
  | time : Int → CellVal F
deriving DecidableEq

/-- Cell access `data[i]` of the row-building loops: `none` is Go's
index-out-of-range panic. The second switch of `jsonTableQuery` has no
`default` branch, so an `invalid` column (unreachable after validation)
also yields no cell. -/
def cellAt {F : Type} : ColData F → Nat → Option (CellVal F)
  | .number l, i => (l.get? i).map CellVal.num
  | .str l, i => (l.get? i).map CellVal.str
  | .time l, i => (l.get? i).map CellVal.time
  | .invalid, _ => none

/-- Validation loop of `jsonTableQuery`: walks the columns carrying
`rowCount` (initially 0) and the accumulated headers; `rowCount` is
(re)assigned from the current column's length whenever it is still 0, and
a column whose length then differs from it is a hard error. -/
def tableColsLoop {F : Type} (rowCount : Nat) (cols : List SJTableColumn) :
    List (TableColumn F) → Except String (Nat × List SJTableColumn)
  | [] => .ok (rowCount, cols)
  | cv :: rest =>
    match colTypeLen cv.data with
    | none => .error ("invlalid column type")
    | some (colType, dataLen) =>
      let rowCount := if rowCount == 0 then dataLen else rowCount
      if dataLen ≠ rowCount then .error ("all columns must be of equal length")
      else tableColsLoop rowCount (cols ++ [⟨cv.text, colType⟩]) rest

/-- Row-building loops of `jsonTableQuery`: row `i`, column `j` is
`resp[j].Data[i]` for `i < rowCount`; any out-of-range access collapses
the build to `none` (Go panics there). -/
def buildRows {F : Type} (resp : List (TableColumn F)) (rowCount : Nat) :
    Option (List (List (CellVal F))) :=
  (List.range rowCount).mapM (fun i => resp.mapM (fun cv => cellAt cv.data i))

/-- Embedding of `simpleJSONTableData`, the wire table response. -/
structure SJTableData (F : Type) where
  type : String
  columns : List SJTableColumn
  rows : List (List (CellVal F))
deriving DecidableEq

/-- Embedding of `jsonTableQuery` after the TableQuery collaborator
succeeded with `resp`: validation may error; a passed validation builds the
row matrix, where `none` stands for the run aborting with an
index-out-of-range panic instead of returning. -/
def jsonTableQuery {F : Type} (resp : List (TableColumn F)) :
    Except String (Option (SJTableData F)) :=
  match tableColsLoop 0 [] resp with
  | .error e => .error e
  | .ok (rowCount, cols) =>
    .ok ((buildRows resp rowCount).map (fun rows => ⟨"table", cols, rows⟩))

/-- Claim C2 is violated by the code: with columns of lengths `[0, 3]` the
second column's length differs from the first column's, yet validation
passes (the `rowCount == 0` guard re-establishes `rowCount` from the
second column) instead of failing with the length-mismatch error. The
claim's concrete cases do hold: lengths `[3, 3, 3]` succeed and
`[3, 3, 2]` fail with the length-mismatch error and no output. -/
theorem tableColsLoop_rowcount_not_from_first_column :
    tableColsLoop (F := Unit) 0 []
        [⟨"a", .number []⟩, ⟨"b", .number [(), (), ()]⟩] =
      .ok (3, [⟨"a", "number"⟩, ⟨"b", "number"⟩]) ∧
    (jsonTableQuery
        [⟨"a", .number [(), (), ()]⟩, ⟨"b", .str ["x", "y", "z"]⟩,
         ⟨"c", .time [1, 2, 3]⟩]).isOk = true ∧
    jsonTableQuery
        [⟨"a", .number [(), (), ()]⟩, ⟨"b", .str ["x", "y", "z"]⟩,
         ⟨"c", .time [1, 2]⟩] =
      .error ("all columns must be of equal length") := by
  refine ⟨rfl, ?_, rfl⟩
  rfl

/-- Claim C9 is violated by the code: the column list of lengths `[0, 3]`
passes the column-type and length checks, but the row-building loop then
reads index 0, 1 and 2 of the empty first column, all out of range (a
runtime panic in Go, the `none` result here). -/
theorem jsonTableQuery_out_of_range_empty_first_column :
    jsonTableQuery (F := Unit)
        [⟨"a", .number []⟩, ⟨"b", .number [(), (), ()]⟩] = .ok none := by
  rfl

/-! ## Timeseries queries (`jsonQuery`, `part_002` lines 489-511)

`sort.Slice(resp, func(i, j int) bool { return resp[i].Time.Before(resp[j].Time) })`
rearranges the collaborator's datapoints into some order that is sorted
with respect to the strict `Before` comparison, i.e. non-decreasing in
time; `List.insertionSort` with the non-strict time order is such a sort. -/

/-- Embedding of `DataPoint` as returned by the Query collaborator; the
`float64` value is opaque. -/
structure DataPoint (V : Type) where
  time : Int
  value : V
deriving DecidableEq

/-- Embedding of `simpleJSONDataPoint` (marshalled later as the
`[value, millisEpoch]` pair). -/
structure SJDataPoint (V : Type) where
  value : V
  time : Int
deriving DecidableEq

/-- Embedding of `simpleJSONData`, one `/query` response entry for a
timeseries target. -/
structure SJData (V : Type) where
  target : String
  datapoints : List (SJDataPoint V)
deriving DecidableEq

/-- Non-strict time order on datapoints, the sortedness guarantee of
`sort.Slice` under the strict `Before` less-function. -/
def dpTimeLE {V : Type} (a b : DataPoint V) : Prop := a.time ≤ b.time

instance {V : Type} : DecidableRel (dpTimeLE (V := V)) :=
  fun a b => inferInstanceAs (Decidable (a.time ≤ b.time))

instance {V : Type} : IsTotal (DataPoint V) dpTimeLE :=
  ⟨fun a b => Int.le_total a.time b.time⟩

instance {V : Type} : IsTrans (DataPoint V) dpTimeLE :=
  ⟨fun _ _ _ h h' => le_trans h h'⟩

/-- Embedding of `jsonQuery` after the Query collaborator succeeded with
`resp`: sort ascending by time, then wrap each point. -/
def jsonQuery {V : Type} (target : String) (resp : List (DataPoint V)) : SJData V :=
  ⟨target, (List.insertionSort dpTimeLE resp).map (fun v => ⟨v.value, v.time⟩)⟩

/-- Claim C4: for every sequence of datapoints returned by the Query
collaborator, in any order, the datapoints array encoded for that target
is non-decreasing in time. -/
theorem jsonQuery_datapoints_sorted {V : Type} (target : String)
    (resp : List (DataPoint V)) :
    List.Sorted (· ≤ ·) ((jsonQuery target resp).datapoints.map SJDataPoint.time) := by
  have h := List.sorted_insertionSort dpTimeLE resp
  simp only [jsonQuery, List.map_map]
  exact List.pairwise_map.mpr h

/-! ## The `/query` dispatcher (`HandleQuery`, `part_002` lines 513-566)

After decoding, the handler loops over the targets in order: type `""` or
`"timeserie"` calls the Query collaborator, `"table"` the TableQuery
collaborator, anything else writes the 400 client error and returns; a
collaborator (or table-encoding) error writes its message with status 500
and returns. Either way nothing but that one error body is written and no
per-target entries are emitted. The collaborators are embedded as the
functions from target name to result that the configured implementations
denote (the handler passes range/interval/maxDataPoints through
unchanged, so they are absorbed into the function). -/

/-- Embedding of `simpleJSONTarget`. -/
structure Target where
  target : String
  refID : String
  hide : Bool
  type : String
deriving DecidableEq

/-- One element of the heterogeneous `/query` response array. -/
inductive QueryEntry (V F : Type) where
  | series : SJData V → QueryEntry V F
  | table : SJTableData F → QueryEntry V F
deriving DecidableEq

/-- Outcome of a handler run: a runtime crash (Go panic), a single error
body written with the given HTTP status, or the successful response. -/
inductive HResult (α : Type) where
  | crash : HResult α
  | err : Nat → String → HResult α
  | ok : α → HResult α
deriving DecidableEq

/-- Whether a handler outcome is a successful response. -/
def HResult.isOk {α : Type} : HResult α → Bool
  | .ok _ => true
  | _ => false

/-- Switch body of the `HandleQuery` target loop for one target. -/
def dispatchTarget {V F : Type} (qf : String → Except String (List (DataPoint V)))
    (tf : String → Except String (List (TableColumn F))) (t : Target) :
    HResult (QueryEntry V F) :=
  if t.type = "" ∨ t.type = "timeserie" then
    match qf t.target with
    | .error e => .err 500 e
    | .ok dps => .ok (.series (jsonQuery t.target dps))
  else if t.type = "table" then
    match tf t.target with
    | .error e => .err 500 e
    | .ok cols =>
      match jsonTableQuery cols with
      | .error e => .err 500 e
      | .ok none => .crash
      | .ok (some td) => .ok (.table td)
  else .err 400 ("unknown query type, timeserie or table")

/-- Target loop of `HandleQuery`, accumulating the `out` slice. -/
def handleQueryLoop {V F : Type} (qf : String → Except String (List (DataPoint V)))
    (tf : String → Except String (List (TableColumn F))) :
    List Target → List (QueryEntry V F) → HResult (List (QueryEntry V F))
  | [], out => .ok out
  | t :: rest, out =>
    match dispatchTarget qf tf t with
    | .crash => .crash
    | .err s b => .err s b
    | .ok e => handleQueryLoop qf tf rest (out ++ [e])

/-- Embedding of `HandleQuery` after request decoding. -/
def HandleQuery {V F : Type} (qf : String → Except String (List (DataPoint V)))
    (tf : String → Except String (List (TableColumn F))) (targets : List Target) :
    HResult (List (QueryEntry V F)) :=
  handleQueryLoop qf tf targets []

theorem handleQueryLoop_ok_prefix {V F : Type}
    (qf : String → Except String (List (DataPoint V)))
    (tf : String → Except String (List (TableColumn F)))
    (pre l : List Target) (out : List (QueryEntry V F))
    (h : ∀ t ∈ pre, (dispatchTarget qf tf t).isOk = true) :
    ∃ o, handleQueryLoop qf tf (pre ++ l) out = handleQueryLoop qf tf l o := by
  induction pre generalizing out with
  | nil => exact ⟨out, rfl⟩
  | cons t ts ih =>
    have ht := h t (List.mem_cons_self t ts)
    match hd : dispatchTarget qf tf t with
    | .crash => rw [hd] at ht; simp [HResult.isOk] at ht
    | .err s b => rw [hd] at ht; simp [HResult.isOk] at ht
    | .ok e =>
      show ∃ o, handleQueryLoop qf tf (t :: (ts ++ l)) out = _
      rw [handleQueryLoop, hd]
      exact ih (out ++ [e]) (fun u hu => h u (List.mem_cons_of_mem t hu))

/-- Claim C5: a query envelope containing a target whose type is not one
of `""`, `"timeserie"` or `"table"` — all targets before it being valid
(known type, collaborator and encoding succeeding) — is answered with the
single 400 error body and no successful entry for any target of the
envelope. -/
theorem handleQuery_unknown_type_400 {V F : Type}
    (qf : String → Except String (List (DataPoint V)))
    (tf : String → Except String (List (TableColumn F)))
    (pre : List Target) (bad : Target) (post : List Target)
    (hpre : ∀ t ∈ pre, (dispatchTarget qf tf t).isOk = true)
    (h1 : bad.type ≠ "") (h2 : bad.type ≠ "timeserie") (h3 : bad.type ≠ "table") :
    HandleQuery qf tf (pre ++ bad :: post) =
      .err 400 ("unknown query type, timeserie or table") := by
  obtain ⟨o, ho⟩ := handleQueryLoop_ok_prefix qf tf pre (bad :: post) [] hpre
  rw [HandleQuery, ho, handleQueryLoop]
  have hd : dispatchTarget qf tf bad = .err 400 ("unknown query type, timeserie or table") := by
    rw [dispatchTarget, if_neg (by tauto), if_neg h3]
  rw [hd]

/-- Witness for C5: one valid timeseries target followed by a target of
type `"bogus"` yields the 400 error and no entries. -/
theorem handleQuery_unknown_type_400_witness :
    HandleQuery (V := Unit) (F := Unit) (fun _ => .ok []) (fun _ => .ok [])
        [⟨"t1", "A", false, ""⟩, ⟨"t2", "B", false, "bogus"⟩] =
      .err 400 ("unknown query type, timeserie or table") := by
  exact handleQuery_unknown_type_400 (fun _ => .ok []) (fun _ => .ok [])
    [⟨"t1", "A", false, ""⟩] ⟨"t2", "B", false, "bogus"⟩ []
    (by intro t ht; simp only [List.mem_singleton] at ht; subst ht; rfl)
    (by decide) (by decide) (by decide)

/-- Claim C7: the status written for a collaborator failure depends on the
endpoint. `HandleQuery` writes 500 when the Query or TableQuery
collaborator fails on the first target that is reached (all earlier
targets succeeding), while `HandleAnnotations` and `HandleSearch` write
400 when the Annotate or Search collaborator fails; in each case the
result is the single error body, never a success carrying entries. -/
theorem collab_error_status_codes {V F : Type}
    (qf : String → Except String (List (DataPoint V)))
    (tf : String → Except String (List (TableColumn F)))
    (pre : List Target) (t : Target) (post : List Target) (e : String)
    (hpre : ∀ u ∈ pre, (dispatchTarget qf tf u).isOk = true)
    (ht : ((t.type = "" ∨ t.type = "timeserie") ∧ qf t.target = .error e) ∨
      (t.type = "table" ∧ tf t.target = .error e)) :
    HandleQuery qf tf (pre ++ t :: post) = .err 500 e ∧
    (∀ (q : ReqAnnot), handleAnnots (.error e) q = .error (400, e)) ∧
    handleSearch (.error e) = .error (400, e) := by
  refine ⟨?_, fun q => rfl, rfl⟩
  obtain ⟨o, ho⟩ := handleQueryLoop_ok_prefix qf tf pre (t :: post) [] hpre
  rw [HandleQuery, ho, handleQueryLoop]
  have hd : dispatchTarget qf tf t = .err 500 e := by
    rcases ht with ⟨hty, hq⟩ | ⟨hty, htf⟩
    · rw [dispatchTarget, if_pos hty, hq]
    · have hne : ¬(t.type = "" ∨ t.type = "timeserie") := by
        rw [hty]; rintro (h | h) <;> exact absurd h (by decide)
      rw [dispatchTarget, if_neg hne, if_pos hty, htf]
  rw [hd]

/-- Witness for C7: a failing Query collaborator on a single timeseries
target yields the 500 error, while the same failure message from the
Annotate and Search collaborators yields 400 errors. -/
theorem collab_error_status_codes_witness :
    HandleQuery (V := Unit) (F := Unit) (fun _ => .error ("boom")) (fun _ => .ok [])
        [⟨"t1", "A", false, ""⟩] = .err 500 ("boom") ∧
    handleAnnots (.error ("boom")) ⟨"n", "d", "q", true, "c"⟩ = .error (400, "boom") ∧
    handleSearch (.error ("boom")) = .error (400, "boom") := by
  have h := collab_error_status_codes (V := Unit) (F := Unit)
    (fun _ => .error ("boom")) (fun _ => .ok [])
    [] ⟨"t1", "A", false, ""⟩ [] "boom"
    (by intro u hu; simp at hu)
    (Or.inl ⟨Or.inl rfl, rfl⟩)
  exact ⟨h.1, h.2.1 ⟨"n", "d", "q", true, "c"⟩, h.2.2⟩

/-! ## The duration codec (`simpleJSONDuration`, `part_002` lines 263-284)

`UnmarshalJSON` delegates to Go's `time.ParseDuration`, whose grammar is
`[-+]?([0-9]*(\.[0-9]*)?[a-z]+)+` with units ns/us/ms/s/m/h. The model
mirrors the Go implementation term by term (`leadingInt`,
`leadingFraction`, the unit map and the explicit `1 <<< 63` overflow
checks), with one deviation: Go adds the fractional contribution through
`float64` arithmetic (`uint64(float64(f) * (float64(unit) / scale))`),
which this model computes exactly as `f * unit / scale`; the two agree on
all practically-sized durations and the acceptance behaviour is
identical. -/

/-- Whether a character is an ASCII decimal digit. -/
def isDigitCh (c : Char) : Bool := 48 ≤ c.toNat && c.toNat ≤ 57

/-- Numeric value of an ASCII decimal digit character. -/
def digitVal (c : Char) : Nat := c.toNat - 48

/-- Embedding of Go `time.leadingInt`: consume leading digits into `x`,
failing (Go `errLeadingInt`) when the accumulator would pass `1 <<< 63`. -/
def leadingInt (x : Nat) : List Char → Option (Nat × List Char)
  | [] => some (x, [])
  | c :: rest =>
    if isDigitCh c then
      if x > 922337203685477580 then none
      else
        let y := x * 10 + digitVal c
        if y > 9223372036854775808 then none
        else leadingInt y rest
    else some (x, c :: rest)

/-- Embedding of Go `time.leadingFraction`: consume digits after the
decimal point, tracking value and scale, silently discarding digits once
the value would overflow. -/
def leadingFraction (x scale : Nat) (overflowed : Bool) :
    List Char → Nat × Nat × List Char
  | [] => (x, scale, [])
  | c :: rest =>
    if isDigitCh c then
      if overflowed then leadingFraction x scale true rest
      else if x > 922337203685477580 then leadingFraction x scale true rest
      else
        let y := x * 10 + digitVal c
        if y > 9223372036854775808 then leadingFraction x scale true rest
        else leadingFraction y (scale * 10) false rest
    else (x, scale, c :: rest)

/-- Embedding of Go's `unitMap`: nanoseconds per duration unit. -/
def unitNanos : List Char → Option Nat
  | ['n', 's'] => some 1
  | ['u', 's'] => some 1000
  | ['µ', 's'] => some 1000
  | ['μ', 's'] => some 1000
  | ['m', 's'] => some 1000000
  | ['s'] => some 1000000000
  | ['m'] => some 60000000000
  | ['h'] => some 3600000000000
  | _ => none

/-- One iteration of the `ParseDuration` loop: leading integer, optional
fraction, mandatory unit; returns the nanosecond contribution and the
remaining input. Fails on a missing magnitude, missing or unknown unit, or
overflow, exactly where Go returns its respective errors. -/
def durStep (s : List Char) : Option (Nat × List Char) :=
  match s with
  | [] => none
  | c :: _ =>
    if !(c == ('.') || isDigitCh c) then none
    else
      match leadingInt 0 s with
      | none => none
      | some (v, s1) =>
        let pre : Bool := s1.length != s.length
        let fr :=
          match s1 with
          | d :: r =>
            if d == ('.') then
              let t := leadingFraction 0 1 false r
              (t.1, t.2.1, t.2.2, (r.length != t.2.2.length : Bool))
            else (0, 1, s1, false)
          | [] => (0, 1, s1, false)
        match fr with
        | (f, scale, s2, post) =>
          if !pre && !post then none
          else
            let u := s2.takeWhile (fun c => !(c == ('.') || isDigitCh c))
            let s3 := s2.drop u.length
            if u.isEmpty then none
            else
              match unitNanos u with
              | none => none
              | some unit =>
                if v > 9223372036854775808 / unit then none
                else
                  let v1 := v * unit
                  if f > 0 then
                    let v2 := v1 + f * unit / scale
                    if v2 > 9223372036854775808 then none else some (v2, s3)
                  else some (v1, s3)

/-- The `for s != ""` loop of `ParseDuration`, accumulating `d`. Each
iteration consumes at least the one-character unit, so `fuel` set to the
input length plus one never runs out. -/
def durLoop : Nat → Nat → List Char → Option Nat
  | _, d, [] => some d
  | 0, _, _ => none
  | fuel + 1, d, s =>
    match durStep s with
    | none => none
    | some (v, s2) =>
      let d2 := d + v
      if d2 > 9223372036854775808 then none else durLoop fuel d2 s2

/-- Embedding of Go `time.ParseDuration`: optional sign, the special `"0"`
input, then unit groups; the result is the signed nanosecond count. -/
def parseDuration (s0 : List Char) : Option Int :=
  let sgn :=
    match s0 with
    | c :: rest =>
      if c == ('-') then (true, rest)
      else if c == ('+') then (false, rest) else (false, s0)
    | [] => (false, s0)
  match sgn with
  | (neg, s) =>
    if s = [('0')] then some 0
    else if s.isEmpty then none
    else
      match durLoop (s.length + 1) 0 s with
      | none => none
      | some d =>
        if neg then some (-(d : Int))
        else if d > 9223372036854775807 then none
        else some ((d : Int))

/-- Embedding of `simpleJSONDuration.UnmarshalJSON` applied to the decoded
JSON string. -/
def parseGoDuration (s : String) : Option Int := parseDuration s.data

/-- Claim C6 is violated by the code: decoding the fractional magnitude
`"1.5s"` succeeds with 1.5 seconds (1500000000 ns) instead of failing
with an error. -/
theorem parseGoDuration_fractional_accepted :
    parseGoDuration ("1.5s") = some 1500000000 := by
  rfl

/-- Claim C6 amended: the duration decoder accepts a numeric magnitude
followed by a unit suffix (at least seconds, minutes, hours), and it also
accepts fractional magnitudes — `"1.5s"` decodes to 1.5 seconds; inputs
with no digits or no unit are the ones rejected. -/
theorem parseGoDuration_grammar :
    parseGoDuration ("30s") = some 30000000000 ∧
    parseGoDuration ("5m") = some 300000000000 ∧
    parseGoDuration ("2h") = some 7200000000000 ∧
    parseGoDuration ("1.5s") = some 1500000000 ∧
    parseGoDuration ("s") = none ∧
    parseGoDuration ("100") = none ∧
    parseGoDuration ("") = none := by
  refine ⟨rfl, rfl, rfl, rfl, rfl, rfl, rfl⟩

/-! ## The RangeTime codec (`simpleJSONTime`, `part_002` lines 231-260)

`MarshalJSON` is `t.Format(time.RFC3339Nano)` and `UnmarshalJSON` is
`time.Parse(time.RFC3339Nano, in)`, layout
`2006-01-02T15:04:05.999999999Z07:00`. Both sides work on the broken-down
calendar form of the instant (Go's `Format` prints the components its
calendar conversion produces, `Parse` validates components and rebuilds
the instant), so the codec pair is embedded on that broken-down form:
`GoDateTime` carries the printed/parsed components, year 0-9999 as the
layout's four year digits require. `.999999999` prints the nanoseconds
with trailing zeros removed and disappears entirely at 0; `Z07:00` prints
`Z` for a zero zone offset and a signed `hh:mm` otherwise, and reads the
same forms back. -/

/-- ASCII digit character for a value 0-9. -/
def digitChar (n : Nat) : Char := Char.ofNat (48 + n)

/-- Two zero-padded decimal digits, as layouts `01`-`05` print. -/
def pad2 (n : Nat) : List Char := [digitChar (n / 10), digitChar (n % 10)]

/-- Four zero-padded decimal digits, as layout `2006` prints. -/
def pad4 (n : Nat) : List Char :=
  [digitChar (n / 1000), digitChar (n / 100 % 10), digitChar (n / 10 % 10), digitChar (n % 10)]

/-- Nine zero-padded decimal digits, the full nanosecond fraction. -/
def pad9 (n : Nat) : List Char :=
  [digitChar (n / 100000000), digitChar (n / 10000000 % 10), digitChar (n / 1000000 % 10),
   digitChar (n / 100000 % 10), digitChar (n / 10000 % 10), digitChar (n / 1000 % 10),
   digitChar (n / 100 % 10), digitChar (n / 10 % 10), digitChar (n % 10)]

/-- Remove trailing `0` characters, as the `.999999999` fraction layout
does. -/
def stripZeroes (l : List Char) : List Char :=
  (l.reverse.dropWhile (fun c => c == ('0'))).reverse

/-- Broken-down calendar form of an instant as printed and parsed by the
RFC3339Nano layout: date, time of day, nanoseconds and the zone offset in
minutes east of UTC. -/
structure GoDateTime where
  year : Nat
  month : Nat
  day : Nat
  hour : Nat
  minute : Nat
  second : Nat
  nanos : Nat
  offMin : Int
deriving DecidableEq

/-- Gregorian leap-year rule, as in Go's `isLeap`. -/
def isLeapYear (y : Nat) : Bool := y % 4 == 0 && (y % 100 != 0 || y % 400 == 0)

/-- Number of days in a month, as in Go's `daysIn`. -/
def daysIn (month year : Nat) : Nat :=
  if month == 2 then (if isLeapYear year then 29 else 28)
  else if month == 4 || month == 6 || month == 9 || month == 11 then 30
  else 31

/-- The component ranges that `time.Format` can print with this layout and
that `time.Parse` accepts back: a four-digit year, a real calendar date,
a valid time of day, sub-second nanoseconds, and a printable `hh:mm` zone
offset. -/
def GoDateTime.Valid (d : GoDateTime) : Prop :=
  d.year < 10000 ∧ 1 ≤ d.month ∧ d.month ≤ 12 ∧ 1 ≤ d.day ∧
  d.day ≤ daysIn d.month d.year ∧ d.hour < 24 ∧ d.minute < 60 ∧
  d.second < 60 ∧ d.nanos < 1000000000 ∧ d.offMin.natAbs < 1440

/-- Fractional-second part printed by `.999999999`: nothing at zero,
otherwise a point followed by the nanoseconds with trailing zeros
stripped. -/
def fmtFrac (nanos : Nat) : List Char :=
  if nanos == 0 then [] else ('.') :: stripZeroes (pad9 nanos)

/-- Zone part printed by `Z07:00`: `Z` at offset zero, else a sign and
zero-padded hours and minutes. -/
def fmtOffset (offMin : Int) : List Char :=
  if offMin == 0 then [('Z')]
  else
    (if offMin < 0 then ('-') else ('+')) ::
      (pad2 (offMin.natAbs / 60) ++ ((':') :: pad2 (offMin.natAbs % 60)))

/-- Embedding of `simpleJSONTime.MarshalJSON`: print the broken-down form
with the `2006-01-02T15:04:05.999999999Z07:00` layout. -/
def fmtRFC3339Nano (d : GoDateTime) : List Char :=
  pad4 d.year ++
    (('-') :: (pad2 d.month ++
      (('-') :: (pad2 d.day ++
        (('T') :: (pad2 d.hour ++
          ((':') :: (pad2 d.minute ++
            ((':') :: (pad2 d.second ++
              (fmtFrac d.nanos ++ fmtOffset d.offMin)))))))))))

/-- Read one ASCII digit. -/
def readDigit : List Char → Option (Nat × List Char)
  | c :: rest => if isDigitCh c then some (digitVal c, rest) else none
  | [] => none

/-- Read exactly two digits (layout elements `01`-`05`). -/
def read2 (s : List Char) : Option (Nat × List Char) := do
  let a ← readDigit s
  let b ← readDigit a.2
  some (a.1 * 10 + b.1, b.2)

/-- Read exactly four digits (layout element `2006`). -/
def read4 (s : List Char) : Option (Nat × List Char) := do
  let a ← read2 s
  let b ← read2 a.2
  some (a.1 * 100 + b.1, b.2)

/-- Require and consume one specific character. -/
def expectCh (c : Char) : List Char → Option (List Char)
  | d :: rest => if d == c then some rest else none
  | [] => none

/-- Consume the maximal run of leading digits. -/
def takeDigits : List Char → List Char × List Char
  | [] => ([], [])
  | c :: rest =>
    if isDigitCh c then
      let t := takeDigits rest
      (c :: t.1, t.2)
    else ([], c :: rest)

/-- Value of a most-significant-first digit string. -/
def digitsVal (l : List Char) : Nat := l.foldl (fun a c => a * 10 + digitVal c) 0

/-- Parse the optional fractional second of `.999999999`: absent unless a
point follows, otherwise one to nine digits scaled to nanoseconds (Go's
`parseNanoseconds`). -/
def parseFrac : List Char → Option (Nat × List Char)
  | c :: rest =>
    if c == ('.') then
      let t := takeDigits rest
      if t.1.isEmpty || t.1.length > 9 then none
      else some (digitsVal t.1 * 10 ^ (9 - t.1.length), t.2)
    else some (0, c :: rest)
  | [] => some (0, [])

/-- Parse the `Z07:00` zone part: `Z`, or a signed `hh:mm` offset. -/
def parseOffset : List Char → Option (Int × List Char)
  | c :: rest =>
    if c == ('Z') then some (0, rest)
    else if c == ('+') || c == ('-') then do
      let h ← read2 rest
      let s1 ← expectCh (':') h.2
      let m ← read2 s1
      if h.1 < 24 ∧ m.1 < 60 then
        some (if c == ('-') then -((h.1 * 60 + m.1 : Nat) : Int)
          else ((h.1 * 60 + m.1 : Nat) : Int), m.2)
      else none
    else none
  | [] => none

/-- Embedding of `simpleJSONTime.UnmarshalJSON`:
`time.Parse(time.RFC3339Nano, in)` on the same layout, requiring the full
input to be consumed and the components to form a real calendar date and
time of day, and returning the parsed broken-down form. -/
def parseRFC3339Nano (s : List Char) : Option GoDateTime :=
  match read4 s with
  | none => none
  | some y =>
  match expectCh ('-') y.2 with
  | none => none
  | some s1 =>
  match read2 s1 with
  | none => none
  | some mo =>
  match expectCh ('-') mo.2 with
  | none => none
  | some s2 =>
  match read2 s2 with
  | none => none
  | some dy =>
  match expectCh ('T') dy.2 with
  | none => none
  | some s3 =>
  match read2 s3 with
  | none => none
  | some h =>
  match expectCh (':') h.2 with
  | none => none
  | some s4 =>
  match read2 s4 with
  | none => none
  | some mi =>
  match expectCh (':') mi.2 with
  | none => none
  | some s5 =>
  match read2 s5 with
  | none => none
  | some se =>
  match parseFrac se.2 with
  | none => none
  | some fr =>
  match parseOffset fr.2 with
  | none => none
  | some off =>
  if off.2.isEmpty ∧ 1 ≤ mo.1 ∧ mo.1 ≤ 12 ∧ 1 ≤ dy.1 ∧ dy.1 ≤ daysIn mo.1 y.1 ∧
      h.1 < 24 ∧ mi.1 < 60 ∧ se.1 < 60 then
    some ⟨y.1, mo.1, dy.1, h.1, mi.1, se.1, fr.1, off.1⟩
  else none

theorem isDigitCh_digitChar : ∀ k < 10, isDigitCh (digitChar k) = true := by decide

theorem digitVal_digitChar : ∀ k < 10, digitVal (digitChar k) = k := by decide

theorem readDigit_digitChar (k : Nat) (h : k < 10) (r : List Char) :
    readDigit (digitChar k :: r) = some (k, r) := by
  simp [readDigit, isDigitCh_digitChar k h, digitVal_digitChar k h]

theorem read2_digits (a b : Nat) (ha : a < 10) (hb : b < 10) (r : List Char) :
    read2 (digitChar a :: digitChar b :: r) = some (a * 10 + b, r) := by
  simp [read2, readDigit_digitChar a ha, readDigit_digitChar b hb]

theorem read2_pad2 (n : Nat) (h : n < 100) (r : List Char) :
    read2 (pad2 n ++ r) = some (n, r) := by
  have h2 := read2_digits (n / 10) (n % 10) (by omega) (by omega) r
  have e : n / 10 * 10 + n % 10 = n := by omega
  rw [e] at h2
  simpa [pad2] using h2

theorem read4_pad4 (n : Nat) (h : n < 10000) (r : List Char) :
    read4 (pad4 n ++ r) = some (n, r) := by
  have h1 := read2_digits (n / 1000) (n / 100 % 10) (by omega) (by omega)
    (digitChar (n / 10 % 10) :: digitChar (n % 10) :: r)
  have h2 := read2_digits (n / 10 % 10) (n % 10) (by omega) (by omega) r
  have e : (n / 1000 * 10 + n / 100 % 10) * 100 + (n / 10 % 10 * 10 + n % 10) = n := by
    omega
  simp [read4, pad4, h1, h2, e]

theorem expectCh_cons (c : Char) (r : List Char) : expectCh c (c :: r) = some r := by
  simp [expectCh]

theorem takeDigits_append (l r : List Char) (hl : ∀ c ∈ l, isDigitCh c = true)
    (hr : ∀ c ∈ r.head?, isDigitCh c = false) :
    takeDigits (l ++ r) = (l, r) := by
  induction l with
  | nil =>
    simp only [List.nil_append]
    cases r with
    | nil => rfl
    | cons c rest =>
      have hc : isDigitCh c = false := hr c rfl
      simp [takeDigits, hc]
  | cons c l ih =>
    have hc := hl c (List.mem_cons_self c l)
    simp [takeDigits, hc, ih (fun x hx => hl x (List.mem_cons_of_mem c hx))]

theorem digitsVal_append_singleton (l : List Char) (c : Char) :
    digitsVal (l ++ [c]) = digitsVal l * 10 + digitVal c := by
  simp [digitsVal, List.foldl_append]

theorem digitsVal_append_zeroes (z : List Char) (hz : ∀ c ∈ z, c = ('0')) :
    ∀ m, digitsVal (m ++ z) = digitsVal m * 10 ^ z.length := by
  induction z with
  | nil => intro m; simp
  | cons c z ih =>
    intro m
    have hc : c = ('0') := hz c (List.mem_cons_self c z)
    have hz' : ∀ x ∈ z, x = ('0') := fun x hx => hz x (List.mem_cons_of_mem c hx)
    have ha : m ++ c :: z = (m ++ [c]) ++ z := by simp
    rw [ha, ih hz' (m ++ [c]), digitsVal_append_singleton, hc]
    show (digitsVal m * 10 + 0) * 10 ^ z.length = digitsVal m * 10 ^ (z.length + 1)
    ring

theorem stripZeroes_decomp (l : List Char) :
    ∃ z, l = stripZeroes l ++ z ∧ (∀ c ∈ z, c = ('0')) := by
  refine ⟨(l.reverse.takeWhile (fun c => c == ('0'))).reverse, ?_, ?_⟩
  · conv_lhs => rw [← l.reverse_reverse]
    rw [stripZeroes, ← List.reverse_append, List.takeWhile_append_dropWhile]
  · intro c hc
    rw [List.mem_reverse] at hc
    have := List.mem_takeWhile_imp hc
    simpa using this

theorem mem_stripZeroes (c : Char) (l : List Char) (h : c ∈ stripZeroes l) : c ∈ l := by
  rw [stripZeroes, List.mem_reverse] at h
  exact List.mem_reverse.mp ((List.dropWhile_sublist _).mem h)

theorem length_stripZeroes_le (l : List Char) : (stripZeroes l).length ≤ l.length := by
  obtain ⟨z, hl, _⟩ := stripZeroes_decomp l
  conv_rhs => rw [hl]
  simp

theorem digitsVal_stripZeroes (l : List Char) :
    digitsVal (stripZeroes l) * 10 ^ (l.length - (stripZeroes l).length) = digitsVal l := by
  obtain ⟨z, hl, hz⟩ := stripZeroes_decomp l
  have hlen : l.length = (stripZeroes l).length + z.length := by
    conv_lhs => rw [hl]
    simp
  have he : l.length - (stripZeroes l).length = z.length := by omega
  rw [he]
  conv_rhs => rw [hl]
  exact (digitsVal_append_zeroes z hz (stripZeroes l)).symm

theorem pad9_digits (n : Nat) (h : n < 1000000000) : ∀ c ∈ pad9 n, isDigitCh c = true := by
  intro c hc
  simp only [pad9, List.mem_cons, List.not_mem_nil, or_false] at hc
  rcases hc with rfl | rfl | rfl | rfl | rfl | rfl | rfl | rfl | rfl <;>
    exact isDigitCh_digitChar _ (by omega)

theorem digitsVal_pad9 (n : Nat) (h : n < 1000000000) : digitsVal (pad9 n) = n := by
  have e1 := digitVal_digitChar (n / 100000000) (by omega)
  have e2 := digitVal_digitChar (n / 10000000 % 10) (by omega)
  have e3 := digitVal_digitChar (n / 1000000 % 10) (by omega)
  have e4 := digitVal_digitChar (n / 100000 % 10) (by omega)
  have e5 := digitVal_digitChar (n / 10000 % 10) (by omega)
  have e6 := digitVal_digitChar (n / 1000 % 10) (by omega)
  have e7 := digitVal_digitChar (n / 100 % 10) (by omega)
  have e8 := digitVal_digitChar (n / 10 % 10) (by omega)
  have e9 := digitVal_digitChar (n % 10) (by omega)
  simp [pad9, digitsVal, e1, e2, e3, e4, e5, e6, e7, e8, e9]
  omega

theorem parseFrac_fmtFrac (n : Nat) (h : n < 1000000000) (r : List Char)
    (hr1 : ∀ c ∈ r.head?, isDigitCh c = false)
    (hr2 : ∀ c ∈ r.head?, ¬c = ('.')) :
    parseFrac (fmtFrac n ++ r) = some (n, r) := by
  by_cases h0 : n = 0
  · subst h0
    rw [fmtFrac]
    simp only [beq_self_eq_true, if_pos, List.nil_append]
    cases r with
    | nil => rfl
    | cons c rest =>
      have hc : ¬c = ('.') := hr2 c rfl
      simp [parseFrac, hc]
  · have hfmt : fmtFrac n = ('.') :: stripZeroes (pad9 n) := by
      rw [fmtFrac, if_neg]
      simpa using h0
    have hval := digitsVal_stripZeroes (pad9 n)
    rw [digitsVal_pad9 n h] at hval
    have hlen : (stripZeroes (pad9 n)).length ≤ 9 := length_stripZeroes_le (pad9 n)
    have hdig : ∀ c ∈ stripZeroes (pad9 n), isDigitCh c = true :=
      fun c hc => pad9_digits n h c (mem_stripZeroes c _ hc)
    have htake := takeDigits_append (stripZeroes (pad9 n)) r hdig hr1
    have hne : (stripZeroes (pad9 n)).isEmpty = false := by
      rcases he : stripZeroes (pad9 n) with _ | ⟨c, t⟩
      · rw [he] at hval
        simp [digitsVal] at hval
        omega
      · rfl
    rw [hfmt, List.cons_append, parseFrac, if_pos (by rfl)]
    simp only [htake]
    rw [if_neg (by rw [hne]; simp only [Bool.false_or, decide_eq_true_eq]; omega)]
    rw [show (pad9 n).length = 9 from rfl] at hval
    rw [hval]

theorem fmtOffset_head_not_digit (o : Int) : ∀ c ∈ (fmtOffset o).head?, isDigitCh c = false := by
  intro c hc
  rw [fmtOffset] at hc
  by_cases h0 : o = 0
  · simp [h0] at hc
    subst hc
    rfl
  · rw [if_neg (by simpa using h0)] at hc
    simp only [List.head?] at hc
    by_cases hneg : o < 0
    · rw [if_pos hneg] at hc
      simp at hc
      subst hc
      rfl
    · rw [if_neg hneg] at hc
      simp at hc
      subst hc
      rfl

theorem fmtOffset_head_not_dot (o : Int) : ∀ c ∈ (fmtOffset o).head?, ¬c = ('.') := by
  intro c hc
  rw [fmtOffset] at hc
  by_cases h0 : o = 0
  · simp [h0] at hc
    subst hc
    decide
  · rw [if_neg (by simpa using h0)] at hc
    simp only [List.head?] at hc
    by_cases hneg : o < 0
    · rw [if_pos hneg] at hc
      simp at hc
      subst hc
      decide
    · rw [if_neg hneg] at hc
      simp at hc
      subst hc
      decide

theorem parseOffset_fmtOffset (o : Int) (h : o.natAbs < 1440) :
    parseOffset (fmtOffset o) = some (o, []) := by
  by_cases h0 : o = 0
  · subst h0
    rfl
  · have hfmt : fmtOffset o =
        (if o < 0 then ('-') else ('+')) ::
          (pad2 (o.natAbs / 60) ++ ((':') :: pad2 (o.natAbs % 60))) := by
      rw [fmtOffset, if_neg]
      simpa using h0
    have h2a := read2_pad2 (o.natAbs / 60) (by omega) ((':') :: pad2 (o.natAbs % 60))
    have h2b := read2_pad2 (o.natAbs % 60) (by omega) []
    rw [List.append_nil] at h2b
    have hh : o.natAbs / 60 < 24 := by omega
    have hm : o.natAbs % 60 < 60 := by omega
    by_cases hneg : o < 0
    · rw [hfmt, if_pos hneg, parseOffset]
      simp only [show (('-') == ('Z')) = false from rfl, show (('-') == ('+')) = false from rfl,
        show (('-') == ('-')) = true from rfl, Bool.false_eq_true, Bool.false_or, if_false,
      if_true, h2a, Option.bind_eq_bind, Option.some_bind, expectCh_cons, h2b]
      rw [if_pos ⟨hh, hm⟩]
      simp only [Option.some.injEq, Prod.mk.injEq, and_true]
      omega
    · rw [hfmt, if_neg hneg, parseOffset]
      simp only [show (('+') == ('Z')) = false from rfl, show (('+') == ('+')) = true from rfl,
        show (('+') == ('-')) = false from rfl, Bool.false_eq_true, Bool.true_or, if_false,
      if_true, h2a, Option.bind_eq_bind, Option.some_bind, expectCh_cons, h2b]
      rw [if_pos ⟨hh, hm⟩]
      simp only [Option.some.injEq, Prod.mk.injEq, and_true]
      omega

theorem daysIn_le_31 (m y : Nat) : daysIn m y ≤ 31 := by
  rw [daysIn]
  split
  · split <;> omega
  · split <;> omega

set_option maxHeartbeats 2000000 in
/-- Claim C8: for every timestamp in the broken-down form that the
RFC3339Nano layout can print (`GoDateTime.Valid`), decoding the RangeTime
encoding yields the timestamp back exactly — including the nanosecond
field, so the round trip preserves nanosecond precision. -/
theorem rfc3339nano_roundtrip (d : GoDateTime) (h : d.Valid) :
    parseRFC3339Nano (fmtRFC3339Nano d) = some d := by
  obtain ⟨y, mo, dy, hr, mi, se, na, off⟩ := d
  obtain ⟨hy, hm1, hm2, hd1, hd2, hh, hmi, hse, hn, hoff⟩ := h
  simp only at hy hm1 hm2 hd1 hd2 hh hmi hse hn hoff
  have hdays := daysIn_le_31 mo y
  have e1 := read4_pad4 y hy
  have e2 : ∀ r, read2 (pad2 mo ++ r) = some (mo, r) := fun r => read2_pad2 mo (by omega) r
  have e3 : ∀ r, read2 (pad2 dy ++ r) = some (dy, r) := fun r => read2_pad2 dy (by omega) r
  have e4 : ∀ r, read2 (pad2 hr ++ r) = some (hr, r) := fun r => read2_pad2 hr (by omega) r
  have e5 : ∀ r, read2 (pad2 mi ++ r) = some (mi, r) := fun r => read2_pad2 mi (by omega) r
  have e6 : ∀ r, read2 (pad2 se ++ r) = some (se, r) := fun r => read2_pad2 se (by omega) r
  have efr := parseFrac_fmtFrac na hn (fmtOffset off)
    (fmtOffset_head_not_digit off) (fmtOffset_head_not_dot off)
  have eoff := parseOffset_fmtOffset off hoff
  rw [fmtRFC3339Nano]
  simp only [parseRFC3339Nano, e1, expectCh_cons, e2, e3, e4, e5, e6, efr, eoff]
  rw [if_pos ⟨rfl, hm1, hm2, hd1, hd2, hh, hmi, hse⟩]

/-- Witness for C8 at the spec's own example instant
`2016-10-31T06:33:44.866Z`. -/
theorem rfc3339nano_roundtrip_witness :
    parseRFC3339Nano (fmtRFC3339Nano ⟨2016, 10, 31, 6, 33, 44, 866000000, 0⟩) =
      some ⟨2016, 10, 31, 6, 33, 44, 866000000, 0⟩ :=
  rfc3339nano_roundtrip ⟨2016, 10, 31, 6, 33, 44, 866000000, 0⟩ (by
    refine ⟨?_, ?_, ?_, ?_, ?_, ?_, ?_, ?_, ?_, ?_⟩ <;> decide)
